import Mathlib

/-!
# Verification of the split analyzer (`scripts/analyze_all_splits.py`)

A shallow embedding of the numeric core of the analyzer:

* `mod_pow`        — binary modular exponentiation (`mod_pow` in the source);
* `is_prime`       — deterministic Miller-Rabin with the fixed 12-witness list
                     (`is_prime` in the source);
* `count_digits`   — digit counting by repeated division (`count_digits`);
* `analyze_number` — one record per split position (`analyze_number`).

Python integers are arbitrary precision and never overflow, so all values are
embedded as `Nat`.  Each `while` loop of the source is embedded as a
structurally recursive function on an explicit fuel argument returning
`Option`; `none` models fuel exhaustion.  The public functions supply fuel
that is proved sufficient (`mod_pow_loop_run`, `count_digits_loop_run`,
`decompose_loop_run`), so the embedded functions compute exactly the loops of
the source and the fuel never runs out on any reachable input.
-/

namespace AnalyzeAllSplits

/-- The fixed witness list `WITNESSES = [2, 3, 5, 7, 11, 13, 17, 19, 23, 29, 31, 37]`. -/
def WITNESSES : List Nat := [2, 3, 5, 7, 11, 13, 17, 19, 23, 29, 31, 37]

/-- The `while exp > 0` loop of `mod_pow`, one fuel unit per iteration.
State: `result`, `base`, `exp`, modulus `m`.  An iteration multiplies
`result` by `base` mod `m` when `exp` is odd, halves `exp` and squares
`base` mod `m`, exactly as lines 24–28 of the source.  `none` = out of fuel. -/
def mod_pow_loop : Nat → Nat → Nat → Nat → Nat → Option Nat
  | 0, result, _, e, _ => if e = 0 then some result else none
  | fuel + 1, result, base, e, m =>
    if e = 0 then some result
    else
      mod_pow_loop fuel (if e % 2 = 1 then (result * base) % m else result)
        ((base * base) % m) (e / 2) m

/-- `mod_pow(base, exp, mod)` from the source: returns `0` when the modulus is
`1`, otherwise runs the binary-exponentiation loop starting from `result = 1`
and `base % m`.  Fuel `e` is sufficient (`mod_pow_loop_run`), so the `getD`
default is never taken. -/
def mod_pow (base e m : Nat) : Nat :=
  if m = 1 then 0 else (mod_pow_loop e 1 (base % m) e m).getD 0

/-- The `while n > 0` loop of `count_digits`: divides by 10 and increments the
counter, one fuel unit per iteration. -/
def count_digits_loop : Nat → Nat → Nat → Option Nat
  | 0, n, digits => if n = 0 then some digits else none
  | fuel + 1, n, digits =>
    if n = 0 then some digits else count_digits_loop fuel (n / 10) (digits + 1)

/-- `count_digits(n)` from the source: `1` for `n = 0`, otherwise the number of
base-10 digits by repeated division.  Fuel `n` is sufficient
(`count_digits_loop_run`), so the `getD` default is never taken. -/
def count_digits (n : Nat) : Nat :=
  if n = 0 then 1 else (count_digits_loop n n 0).getD 0

/-- The `while d % 2 == 0` loop of `is_prime` writing `n - 1 = 2^r * d`:
halves `d` and increments `r` while `d` is even.  On `d = 0` the source loop
never exits; here the fuel runs out and `none` is returned. -/
def decompose_loop : Nat → Nat → Nat → Option (Nat × Nat)
  | 0, d, r => if d % 2 = 0 then none else some (d, r)
  | fuel + 1, d, r =>
    if d % 2 = 0 then decompose_loop fuel (d / 2) (r + 1) else some (d, r)

/-- The inner `for _ in range(r - 1)` loop of `is_prime`: squares `x` mod `n`
up to `count` times and returns the final value of the `composite` flag
(`false` as soon as some square equals `n - 1`). -/
def mr_inner (n : Nat) : Nat → Nat → Bool
  | 0, _ => true
  | count + 1, x =>
    let x2 := (x * x) % n
    if x2 = n - 1 then false else mr_inner n count x2

/-- One round of the witness loop body of `is_prime` for witness `a`:
`true` when the round ends in `continue` (the witness does not prove `n`
composite), `false` when it establishes compositeness. -/
def mr_witness (n d r a : Nat) : Bool :=
  if n ≤ a then true
  else
    let x := mod_pow a d n
    if x = 1 ∨ x = n - 1 then true
    else ! mr_inner n (r - 1) x

/-- The `for a in WITNESSES` loop of `is_prime`: returns `false` at the first
witness proving compositeness (the source's early `return False`), `true`
when every witness passes. -/
def mr_loop (n d r : Nat) : List Nat → Bool
  | [] => true
  | a :: rest => if mr_witness n d r a then mr_loop n d r rest else false

/-- The general Miller-Rabin part of `is_prime` (lines 43–69 of the source),
reached after the fast paths: decompose `n - 1 = 2^r * d` and run the witness
loop.  Fuel `n - 1` for the decomposition is sufficient on every reachable
input (`n` odd, `n ≥ 2`), see `decompose_loop_run`. -/
def mr_test (n : Nat) : Bool :=
  match decompose_loop (n - 1) (n - 1) 0 with
  | none => false
  | some (d, r) => mr_loop n d r WITNESSES

/-- `is_prime(n)` from the source: fast paths (`n < 2`, the literal tuple of
small primes, even `n`), then the deterministic Miller-Rabin test. -/
def is_prime (n : Nat) : Bool :=
  if n < 2 then false
  else if n ∈ ([2, 3, 5, 7, 11, 13, 17, 19, 23, 29, 31, 37] : List Nat) then true
  else if n % 2 = 0 then false
  else mr_test n

/-- `mod_pow` with the loop fuel made visible: `none` would mean the loop ran
out of fuel before the exponent reached `0`. -/
def mod_powOpt (base e m : Nat) : Option Nat :=
  if m = 1 then some 0 else mod_pow_loop e 1 (base % m) e m

/-- Witness round of `is_prime` with the `mod_pow` loop fuel made visible. -/
def mr_witnessOpt (n d r a : Nat) : Option Bool :=
  if n ≤ a then some true
  else
    match mod_powOpt a d n with
    | none => none
    | some x => if x = 1 ∨ x = n - 1 then some true else some (! mr_inner n (r - 1) x)

/-- Witness loop of `is_prime` with loop fuel made visible. -/
def mr_loopOpt (n d r : Nat) : List Nat → Option Bool
  | [] => some true
  | a :: rest =>
    match mr_witnessOpt n d r a with
    | none => none
    | some true => mr_loopOpt n d r rest
    | some false => some false

/-- General Miller-Rabin part of `is_prime` with every loop fuel made
visible. -/
def mr_testOpt (n : Nat) : Option Bool :=
  match decompose_loop (n - 1) (n - 1) 0 with
  | none => none
  | some (d, r) => mr_loopOpt n d r WITNESSES

/-- `is_prime` with every internal loop fuel-limited; `none` models a loop
running forever (fuel exhaustion).  `C9_termination` shows it always returns
`some`, i.e. `is_prime` is total. -/
def is_primeOpt (n : Nat) : Option Bool :=
  if n < 2 then some false
  else if n ∈ ([2, 3, 5, 7, 11, 13, 17, 19, 23, 29, 31, 37] : List Nat) then some true
  else if n % 2 = 0 then some false
  else mr_testOpt n

/-- One tuple `(n, split_pos, a, b, product, is_prime, digits)` appended by
`analyze_number`. -/
structure SplitRecord where
  n : Nat
  k : Nat
  a : Nat
  b : Nat
  product : Nat
  prime : Bool
  digits : Nat
deriving DecidableEq, Repr

/-- The number of characters of `str(n)`, the decimal string of `n`: one
character for `n = 0`, otherwise the length of the base-10 digit list.
This embeds the `num_digits = len(str(n))` line of `analyze_number`. -/
def str_len (n : Nat) : Nat :=
  if n = 0 then 1 else (Nat.digits 10 n).length

/-- `analyze_number(n)` from the source: for each split position
`k = 1 .. num_digits - 1` (with `num_digits = len(str(n))`), the record with
`divisor = 10^k`, `a = n // divisor`, `b = n % divisor`,
`product = a * b + 1`, its primality and its digit count. -/
def analyze_number (n : Nat) : List SplitRecord :=
  (List.range' 1 (str_len n - 1)).map fun k =>
    let divisor := 10 ^ k
    let a := n / divisor
    let b := n % divisor
    let product := a * b + 1
    { n := n, k := k, a := a, b := b, product := product,
      prime := is_prime product, digits := count_digits product }

/-! ## Loop lemmas -/

/-- The modular-exponentiation loop terminates: fuel `e` covers every
iteration, because the exponent at least halves each round. -/
theorem mod_pow_loop_run : ∀ fuel e result base m, e ≤ fuel →
    ∃ v, mod_pow_loop fuel result base e m = some v := by
  intro fuel
  induction fuel with
  | zero =>
    intro e r b m he
    have h0 : e = 0 := by omega
    subst h0
    exact ⟨r, rfl⟩
  | succ fuel ih =>
    intro e r b m he
    by_cases h0 : e = 0
    · subst h0
      exact ⟨r, by simp [mod_pow_loop]⟩
    · have h2 : e / 2 ≤ fuel := by omega
      obtain ⟨v, hv⟩ := ih (e / 2) (if e % 2 = 1 then (r * b) % m else r) ((b * b) % m) m h2
      refine ⟨v, ?_⟩
      rw [mod_pow_loop, if_neg h0]
      exact hv

/-- Loop invariant of `mod_pow`: from any `result < m` the loop computes
`result * base ^ e % m`. -/
theorem mod_pow_loop_eq : ∀ fuel e result base m, e ≤ fuel → result < m →
    mod_pow_loop fuel result base e m = some (result * base ^ e % m) := by
  intro fuel
  induction fuel with
  | zero =>
    intro e r b m he hr
    have h0 : e = 0 := by omega
    subst h0
    simp [mod_pow_loop, Nat.mod_eq_of_lt hr]
  | succ fuel ih =>
    intro e r b m he hr
    by_cases h0 : e = 0
    · subst h0
      simp [mod_pow_loop, Nat.mod_eq_of_lt hr]
    · have hm : 0 < m := Nat.lt_of_le_of_lt (Nat.zero_le r) hr
      have h2 : e / 2 ≤ fuel := by omega
      rw [mod_pow_loop, if_neg h0]
      by_cases hpar : e % 2 = 1
      · have hr' : (r * b) % m < m := Nat.mod_lt _ hm
        rw [if_pos hpar, ih (e / 2) ((r * b) % m) ((b * b) % m) m h2 hr']
        congr 1
        have he2 : 2 * (e / 2) + 1 = e := by omega
        calc (r * b) % m * ((b * b) % m) ^ (e / 2) % m
            = r * b * (b * b) ^ (e / 2) % m :=
              Nat.ModEq.mul ((Nat.mod_modEq (r * b) m)) ((Nat.mod_modEq (b * b) m).pow _)
          _ = r * b ^ e % m := by
              rw [← pow_two b, ← pow_mul, mul_assoc, ← pow_succ' b, he2]
      · have hr2 : r < m := hr
        rw [if_neg hpar, ih (e / 2) r ((b * b) % m) m h2 hr2]
        congr 1
        have he2 : 2 * (e / 2) = e := by omega
        calc r * ((b * b) % m) ^ (e / 2) % m
            = r * (b * b) ^ (e / 2) % m :=
              Nat.ModEq.mul (Nat.ModEq.refl r) ((Nat.mod_modEq (b * b) m).pow _)
          _ = r * b ^ e % m := by rw [← pow_two b, ← pow_mul, he2]

/-- `mod_pow` computes modular exponentiation for every modulus `m ≥ 1`. -/
theorem mod_pow_eq (base e m : Nat) (hm : 1 ≤ m) : mod_pow base e m = base ^ e % m := by
  unfold mod_pow
  by_cases h1 : m = 1
  · subst h1
    simp [Nat.mod_one]
  · have hm2 : 1 < m := by omega
    rw [if_neg h1, mod_pow_loop_eq e e 1 (base % m) m le_rfl hm2]
    rw [Option.getD_some, one_mul, ← Nat.pow_mod]

/-- The digit-counting loop terminates with the length of the base-10 digit
list: fuel `n` covers every iteration. -/
theorem count_digits_loop_eq : ∀ fuel n digits, n ≤ fuel →
    count_digits_loop fuel n digits = some (digits + (Nat.digits 10 n).length) := by
  intro fuel
  induction fuel with
  | zero =>
    intro n d h
    have h0 : n = 0 := by omega
    subst h0
    simp [count_digits_loop]
  | succ fuel ih =>
    intro n d h
    by_cases h0 : n = 0
    · subst h0
      simp [count_digits_loop]
    · have h10 : n / 10 ≤ fuel := by omega
      rw [count_digits_loop, if_neg h0, ih (n / 10) (d + 1) h10,
        Nat.digits_def' (by norm_num : 1 < 10) (Nat.pos_of_ne_zero h0)]
      simp only [List.length_cons]
      congr 1
      omega

/-- `count_digits` equals the decimal-string length. -/
theorem count_digits_eq_str_len (n : Nat) : count_digits n = str_len n := by
  unfold count_digits str_len
  by_cases h0 : n = 0
  · simp [h0]
  · rw [if_neg h0, if_neg h0, count_digits_loop_eq n n 0 le_rfl, Option.getD_some,
      Nat.zero_add]

/-- `count_digits` is always positive. -/
theorem count_digits_pos (n : Nat) : 1 ≤ count_digits n := by
  rw [count_digits_eq_str_len]
  unfold str_len
  by_cases h0 : n = 0
  · simp [h0]
  · rw [if_neg h0]
    exact List.length_pos.mpr (Nat.digits_ne_nil_iff_ne_zero.mpr h0)

/-- The decomposition loop terminates on every positive `d` with fuel `d`,
returning the odd part `d'` and the exponent `s` with `d = 2 ^ s * d'`. -/
theorem decompose_loop_run : ∀ fuel d r, 0 < d → d ≤ fuel →
    ∃ d' s, decompose_loop fuel d r = some (d', r + s) ∧ d' % 2 = 1 ∧ d = 2 ^ s * d' := by
  intro fuel
  induction fuel with
  | zero =>
    intro d r h1 h2
    omega
  | succ fuel ih =>
    intro d r h1 h2
    by_cases he : d % 2 = 0
    · have hd2 : 0 < d / 2 := by omega
      have hf : d / 2 ≤ fuel := by omega
      obtain ⟨d', s, h3, h4, h5⟩ := ih (d / 2) (r + 1) hd2 hf
      refine ⟨d', s + 1, ?_, h4, ?_⟩
      · have hadd : r + 1 + s = r + (s + 1) := by omega
        rw [decompose_loop, if_pos he, h3, hadd]
      · have hd : d = 2 * (d / 2) := by omega
        rw [hd, h5, pow_succ]
        ring
    · exact ⟨d, 0, by rw [decompose_loop, if_neg he]; simp, by omega, by simp⟩

/-! ## The fuel-visible variant of `is_prime` agrees with the total one -/

theorem mod_powOpt_eq (base e m : Nat) : mod_powOpt base e m = some (mod_pow base e m) := by
  unfold mod_powOpt mod_pow
  by_cases h1 : m = 1
  · simp [h1]
  · obtain ⟨v, hv⟩ := mod_pow_loop_run e e 1 (base % m) m le_rfl
    rw [if_neg h1, if_neg h1, hv, Option.getD_some]

theorem mr_witnessOpt_eq (n d r a : Nat) :
    mr_witnessOpt n d r a = some (mr_witness n d r a) := by
  by_cases hna : n ≤ a
  · simp [mr_witnessOpt, mr_witness, hna]
  · simp only [mr_witnessOpt, mr_witness, if_neg hna, mod_powOpt_eq]
    split <;> rfl

theorem mr_loopOpt_eq (n d r : Nat) : ∀ l, mr_loopOpt n d r l = some (mr_loop n d r l) := by
  intro l
  induction l with
  | nil => rfl
  | cons a rest ih =>
    simp only [mr_loopOpt, mr_loop, mr_witnessOpt_eq]
    cases hw : mr_witness n d r a <;> simp [hw, ih]

theorem mr_testOpt_eq (n : Nat) (h2 : 2 ≤ n) : mr_testOpt n = some (mr_test n) := by
  obtain ⟨d', s, h3, _, _⟩ := decompose_loop_run (n - 1) (n - 1) 0 (by omega) le_rfl
  unfold mr_testOpt mr_test
  rw [h3]
  exact mr_loopOpt_eq n d' (0 + s) WITNESSES

theorem is_primeOpt_eq (n : Nat) : is_primeOpt n = some (is_prime n) := by
  unfold is_primeOpt is_prime
  by_cases h1 : n < 2
  · simp [h1]
  · rw [if_neg h1, if_neg h1]
    by_cases h2 : n ∈ ([2, 3, 5, 7, 11, 13, 17, 19, 23, 29, 31, 37] : List Nat)
    · simp [h2]
    · rw [if_neg h2, if_neg h2]
      by_cases h3 : n % 2 = 0
      · simp [h3]
      · rw [if_neg h3, if_neg h3]
        exact mr_testOpt_eq n (by omega)

/-! ## Helpers for `analyze_number` -/

theorem analyze_number_length (n : Nat) :
    (analyze_number n).length = count_digits n - 1 := by
  unfold analyze_number
  rw [List.length_map, List.length_range', count_digits_eq_str_len]

theorem analyze_number_getElem? (n i : Nat) (h : i < count_digits n - 1) :
    (analyze_number n)[i]? = some
      { n := n, k := 1 + i, a := n / 10 ^ (1 + i), b := n % 10 ^ (1 + i),
        product := n / 10 ^ (1 + i) * (n % 10 ^ (1 + i)) + 1,
        prime := is_prime (n / 10 ^ (1 + i) * (n % 10 ^ (1 + i)) + 1),
        digits := count_digits (n / 10 ^ (1 + i) * (n % 10 ^ (1 + i)) + 1) } := by
  have h' : i < str_len n - 1 := by rw [← count_digits_eq_str_len]; exact h
  unfold analyze_number
  rw [List.getElem?_map, List.getElem?_range' _ _ h', one_mul, Option.map_some']

/-- If `k` is a valid split position then `n` has at least `k + 1` digits, so
`10 ^ k ≤ n`. -/
theorem pow_ten_le (n k : Nat) (h1 : 1 ≤ k) (h2 : k ≤ count_digits n - 1) : 10 ^ k ≤ n := by
  rcases Nat.eq_zero_or_pos n with h0 | h0
  · subst h0
    rw [show count_digits 0 = 1 from rfl] at h2
    omega
  · have hne : n ≠ 0 := by omega
    have hlog : count_digits n = Nat.log 10 n + 1 := by
      rw [count_digits_eq_str_len]
      unfold str_len
      rw [if_neg hne, Nat.digits_len 10 n (by norm_num) hne]
    have hk : k ≤ Nat.log 10 n := by omega
    calc 10 ^ k ≤ 10 ^ Nat.log 10 n := Nat.pow_le_pow_right (by norm_num) hk
      _ ≤ n := Nat.pow_log_le_self 10 hne

/-- Concrete evaluation: `str(100)` has 3 characters. -/
theorem str_len_100 : str_len 100 = 3 := by
  simp [str_len, Nat.digits_def']

/-- Concrete evaluation of `analyze_number(100)` (scenario from the spec). -/
theorem analyze_number_100 : analyze_number 100 =
    [{ n := 100, k := 1, a := 10, b := 0, product := 1, prime := false, digits := 1 },
     { n := 100, k := 2, a := 1, b := 0, product := 1, prime := false, digits := 1 }] := by
  unfold analyze_number
  rw [str_len_100]
  decide

/-- The 20-nines input used to exhibit products above `2^64 - 1`. -/
theorem count_digits_big : count_digits 99999999999999999999 = 20 := by
  rw [count_digits_eq_str_len]
  simp [str_len, Nat.digits_def']

/-- Spot checks of the primality test: the classic Fermat/strong pseudoprimes
341 = 11*31, 561 = 3*11*17, 2047 = 23*89 and 300001 = 13*23077 are rejected,
the prime 1000003 is accepted. -/
theorem is_prime_spot_checks :
    is_prime 341 = false ∧ is_prime 561 = false ∧ is_prime 2047 = false ∧
    is_prime 1000003 = true ∧ is_prime 300001 = false := by
  decide

set_option maxHeartbeats 1000000 in
set_option maxRecDepth 8000 in
/-- The embedded `is_prime` agrees with trial division on `0 .. 119`. -/
theorem is_prime_agrees_with_trial_division :
    (List.range 120).all
      (fun n => is_prime n == decide (2 ≤ n ∧ ∀ m, m < n → m ∣ n → m = 1 ∨ m = n)) = true := by
  decide

/-! ## Claims -/

/-- C2: `mod_pow(base, exponent, modulus)` equals `base ^ exponent mod modulus`
for every modulus ≥ 1; in particular `mod_pow(a, e, 1) = 0` for all `a`, `e`,
and `mod_pow(a, 0, m) = 1` for all `m > 1`. -/
theorem C2_mod_pow_correct (base e m : Nat) :
    (1 ≤ m → mod_pow base e m = base ^ e % m) ∧
    mod_pow base e 1 = 0 ∧
    (1 < m → mod_pow base 0 m = 1) := by
  refine ⟨fun hm => mod_pow_eq base e m hm, by simp [mod_pow], fun hm => ?_⟩
  rw [mod_pow_eq base 0 m (by omega), pow_zero, Nat.mod_eq_of_lt hm]

/-- Witness for C2 at `base = 3`, `e = 5`, `m = 7` (and `m = 1`, `e = 0`). -/
theorem C2_witness : mod_pow 3 5 7 = 3 ^ 5 % 7 ∧ mod_pow 3 5 1 = 0 ∧ mod_pow 3 0 7 = 1 :=
  ⟨(C2_mod_pow_correct 3 5 7).1 (by norm_num), (C2_mod_pow_correct 3 5 1).2.1,
    (C2_mod_pow_correct 3 5 7).2.2 (by norm_num)⟩

/-- C3 counterexample: for `n = 99999999999999999999` (20 nines) the split at
`k = 10` has true product `A*B + 1 = 99999999980000000002 > 2^64 - 1`, yet the
analysis completes normally — all 19 records are produced and the record holds
the exact, unflagged value.  The source computes in Python arbitrary-precision
integers and raises no `ArithmeticOverflow` (no such mechanism exists in it). -/
theorem C3_counterexample :
    (analyze_number 99999999999999999999).length = 19 ∧
    ((analyze_number 99999999999999999999)[9]?).map SplitRecord.product =
      some 99999999980000000002 ∧
    18446744073709551615 < 99999999980000000002 := by
  refine ⟨by rw [analyze_number_length, count_digits_big], ?_, by norm_num⟩
  have h9 : (9 : Nat) < count_digits 99999999999999999999 - 1 := by
    rw [count_digits_big]
    omega
  rw [analyze_number_getElem? _ 9 h9, Option.map_some']
  norm_num

/-- C3 (amended): at every valid split position the analysis produces a normal
record holding the exact mathematical value `P = A*B + 1` — even when that
value exceeds `2^64 - 1`.  No overflow error is raised and no value is
wrapped: the source uses arbitrary-precision integers and has no overflow
detection at all. -/
theorem C3_exact_product (n k : Nat) (h1 : 1 ≤ k) (h2 : k ≤ count_digits n - 1) :
    ∃ r : SplitRecord, (analyze_number n)[k - 1]? = some r ∧
      r.product = n / 10 ^ k * (n % 10 ^ k) + 1 := by
  have hk : k - 1 < count_digits n - 1 := by omega
  have h := analyze_number_getElem? n (k - 1) hk
  rw [show 1 + (k - 1) = k from by omega] at h
  exact ⟨_, h, rfl⟩

/-- Witness for C3 (amended) at the 20-nines input, split `k = 10`, whose true
product exceeds `2^64 - 1`. -/
theorem C3_witness : ∃ r : SplitRecord,
    (analyze_number 99999999999999999999)[10 - 1]? = some r ∧
    r.product = 99999999999999999999 / 10 ^ 10 * (99999999999999999999 % 10 ^ 10) + 1 :=
  C3_exact_product 99999999999999999999 10 (by norm_num)
    (by rw [count_digits_big]; omega)

/-- C4: for every `n ≥ 0` and split position `k` with
`1 ≤ k ≤ digitCount(n) - 1`, the record of `analyze(n)` at position `k`
satisfies `A*10^k + B = n`, `B < 10^k` and `A ≥ 1`, where `A = n div 10^k`
and `B = n mod 10^k`. -/
theorem C4_split_arithmetic (n k : Nat) (h1 : 1 ≤ k) (h2 : k ≤ count_digits n - 1) :
    ∃ r : SplitRecord, (analyze_number n)[k - 1]? = some r ∧
      r.k = k ∧ r.a = n / 10 ^ k ∧ r.b = n % 10 ^ k ∧
      r.a * 10 ^ k + r.b = n ∧ r.b < 10 ^ k ∧ 1 ≤ r.a := by
  have hk : k - 1 < count_digits n - 1 := by omega
  have h := analyze_number_getElem? n (k - 1) hk
  rw [show 1 + (k - 1) = k from by omega] at h
  refine ⟨_, h, rfl, rfl, rfl, ?_, ?_, ?_⟩
  · show n / 10 ^ k * 10 ^ k + n % 10 ^ k = n
    rw [Nat.mul_comm]
    exact Nat.div_add_mod n (10 ^ k)
  · exact Nat.mod_lt n (by positivity)
  · exact Nat.div_pos (pow_ten_le n k h1 h2) (by positivity)

/-- Witness for C4 at `n = 100`, `k = 1`. -/
theorem C4_witness : ∃ r : SplitRecord, (analyze_number 100)[1 - 1]? = some r ∧
    r.k = 1 ∧ r.a = 100 / 10 ^ 1 ∧ r.b = 100 % 10 ^ 1 ∧
    r.a * 10 ^ 1 + r.b = 100 ∧ r.b < 10 ^ 1 ∧ 1 ≤ r.a :=
  C4_split_arithmetic 100 1 (by norm_num) (by decide)

/-- C5: `analyze(n)` yields exactly `max(0, digitCount(n) - 1)` records, the
split position of the record at index `i` is `i + 1` (so `k` starts at 1 and
increases by 1), and a single-digit `n` yields no records. -/
theorem C5_record_count (n : Nat) :
    (analyze_number n).length = max 0 (count_digits n - 1) ∧
    (∀ i r, (analyze_number n)[i]? = some r → r.k = i + 1) ∧
    (count_digits n = 1 → analyze_number n = []) := by
  refine ⟨by rw [analyze_number_length, Nat.zero_max], fun i r h => ?_, fun h1 => ?_⟩
  · have hi : i < count_digits n - 1 := by
      by_contra hge
      have hlen : (analyze_number n).length ≤ i := by rw [analyze_number_length]; omega
      rw [List.getElem?_eq_none hlen] at h
      exact Option.noConfusion h
    rw [analyze_number_getElem? n i hi] at h
    obtain rfl := Option.some.inj h
    show 1 + i = i + 1
    omega
  · apply List.eq_nil_of_length_eq_zero
    rw [analyze_number_length]
    omega

/-- Witness for C5 at `n = 100`, index `0` (and the single-digit case `n = 7`). -/
theorem C5_witness :
    (analyze_number 100)[0]? =
      some { n := 100, k := 1, a := 10, b := 0, product := 1, prime := false, digits := 1 } ∧
    ({ n := 100, k := 1, a := 10, b := 0, product := 1, prime := false,
        digits := 1 } : SplitRecord).k = 0 + 1 ∧
    analyze_number 7 = [] := by
  have h : (analyze_number 100)[0]? =
      some { n := 100, k := 1, a := 10, b := 0, product := 1, prime := false, digits := 1 } := by
    rw [analyze_number_100]
    rfl
  exact ⟨h, (C5_record_count 100).2.1 0 _ h, (C5_record_count 7).2.2 (by decide)⟩

/-- C6: `is_prime` returns `false` for `n < 2`, `true` on each of the 12
witness values (which hit the small-prime fast path), and `false` for every
even `n > 2`. -/
theorem C6_fast_paths :
    (∀ n, n < 2 → is_prime n = false) ∧
    (∀ a ∈ WITNESSES, is_prime a = true) ∧
    (∀ n, 2 < n → n % 2 = 0 → is_prime n = false) := by
  refine ⟨fun n h => ?_, by decide, fun n h2 he => ?_⟩
  · interval_cases n <;> rfl
  · have hmem : n ∉ ([2, 3, 5, 7, 11, 13, 17, 19, 23, 29, 31, 37] : List Nat) := by
      intro hm
      fin_cases hm <;> omega
    unfold is_prime
    rw [if_neg (by omega), if_neg hmem, if_pos he]

/-- Witness for C6 at `n = 1`, `a = 37` and `n = 100`. -/
theorem C6_witness : is_prime 1 = false ∧ is_prime 37 = true ∧ is_prime 100 = false :=
  ⟨C6_fast_paths.1 1 (by norm_num), C6_fast_paths.2.1 37 (by decide),
    C6_fast_paths.2.2 100 (by norm_num) (by norm_num)⟩

/-- C7: `count_digits n` equals the number of characters of the decimal string
representation of `n` (`str_len`, the length of the base-10 digit string, with
one character for `n = 0`); in particular `count_digits 0 = 1`. -/
theorem C7_count_digits_eq_string_length (n : Nat) :
    count_digits n = str_len n ∧ count_digits 0 = 1 :=
  ⟨count_digits_eq_str_len n, rfl⟩

/-- C8 counterexample: at `n = 9` every fast-path filter passes — `9 ≥ 2`, `9`
is not in the witness tuple, `9` is odd — so `is_prime` runs the general test,
whose witness round invokes `mod_pow` with modulus `9`; but `9 > 37` is false,
refuting the claim's parenthetical "in fact n is odd and n > 37". -/
theorem C8_counterexample :
    ¬ (9 : Nat) < 2 ∧
    (9 : Nat) ∉ ([2, 3, 5, 7, 11, 13, 17, 19, 23, 29, 31, 37] : List Nat) ∧
    (9 : Nat) % 2 ≠ 0 ∧
    is_prime 9 = mr_test 9 ∧
    decompose_loop 8 8 0 = some (1, 3) ∧
    mr_witness 9 1 3 2 = (! mr_inner 9 2 (mod_pow 2 1 9)) ∧
    mod_pow 2 1 9 = 2 ∧
    ¬ (37 : Nat) < 9 := by
  decide

/-- C8 (amended): `is_prime` never invokes `mod_pow` with modulus 0: whenever
the general test (and hence `mod_pow` with modulus `n`) is reached, the
fast-path filters guarantee `n` is odd and `n ≥ 9` — so the modulus is at
least 2 and the modulus = 0 precondition violation is unreachable. -/
theorem C8_modulus_never_zero (n : Nat) (h1 : ¬ n < 2)
    (h2 : n ∉ ([2, 3, 5, 7, 11, 13, 17, 19, 23, 29, 31, 37] : List Nat))
    (h3 : ¬ n % 2 = 0) :
    is_prime n = mr_test n ∧ 9 ≤ n ∧ n % 2 = 1 := by
  refine ⟨by unfold is_prime; rw [if_neg h1, if_neg h2, if_neg h3], ?_, by omega⟩
  by_contra h9
  have hn9 : n < 9 := by omega
  interval_cases n
  · exact h3 rfl
  · exact h2 (by decide)
  · exact h3 rfl
  · exact h2 (by decide)
  · exact h3 rfl
  · exact h2 (by decide)
  · exact h3 rfl

/-- Witness for C8 (amended) at `n = 9`. -/
theorem C8_witness : is_prime 9 = mr_test 9 ∧ 9 ≤ 9 ∧ (9 : Nat) % 2 = 1 :=
  C8_modulus_never_zero 9 (by norm_num) (by decide) (by norm_num)

/-- C9: `is_prime` is total — the fuel-visible variant, in which any
non-terminating loop would surface as `none`, always returns
`some (is_prime n)`; moreover each supporting loop terminates on its own:
the `mod_pow` loop for every exponent and modulus ≥ 1, the decomposition loop
of `n - 1 = 2^r * d` for every odd `n > 37`, and the `count_digits` loop for
every `n ≥ 0`. -/
theorem C9_termination :
    (∀ n, is_primeOpt n = some (is_prime n)) ∧
    (∀ base e m, 1 ≤ m → ∃ v, mod_powOpt base e m = some v) ∧
    (∀ n, 37 < n → n % 2 = 1 → ∃ p, decompose_loop (n - 1) (n - 1) 0 = some p) ∧
    (∀ n, ∃ v, count_digits_loop n n 0 = some v) := by
  refine ⟨is_primeOpt_eq, fun base e m _ => ?_, fun n h37 _ => ?_, fun n => ?_⟩
  · exact ⟨mod_pow base e m, mod_powOpt_eq base e m⟩
  · obtain ⟨d', s, h3, _, _⟩ := decompose_loop_run (n - 1) (n - 1) 0 (by omega) le_rfl
    exact ⟨(d', 0 + s), h3⟩
  · exact ⟨0 + (Nat.digits 10 n).length, count_digits_loop_eq n n 0 le_rfl⟩

/-- Witness for C9 at `n = 41` (odd, above all fast paths), `mod_pow` at
`(2, 10, 7)` and `count_digits` at `5`. -/
theorem C9_witness :
    is_primeOpt 41 = some (is_prime 41) ∧
    (∃ v, mod_powOpt 2 10 7 = some v) ∧
    (∃ p, decompose_loop (41 - 1) (41 - 1) 0 = some p) ∧
    (∃ v, count_digits_loop 5 5 0 = some v) :=
  ⟨C9_termination.1 41, C9_termination.2.1 2 10 7 (by norm_num),
    C9_termination.2.2.1 41 (by norm_num) (by norm_num), C9_termination.2.2.2 5⟩

/-- C10: every record produced by `analyze_number` satisfies
`P = A*B + 1 ≥ 1` and `digits ≥ 1` (with `A ≥ 1`), so the tested value is
never 0 and its digit count is positive. -/
theorem C10_record_invariants (n : Nat) (r : SplitRecord) (h : r ∈ analyze_number n) :
    r.product = r.a * r.b + 1 ∧ 1 ≤ r.product ∧ 1 ≤ r.digits ∧ 1 ≤ r.a := by
  unfold analyze_number at h
  rw [List.mem_map] at h
  obtain ⟨k, hk, rfl⟩ := h
  rw [List.mem_range'] at hk
  obtain ⟨i, hi, rfl⟩ := hk
  refine ⟨rfl, ?_, ?_, ?_⟩
  · show 1 ≤ n / 10 ^ (1 + 1 * i) * (n % 10 ^ (1 + 1 * i)) + 1
    exact Nat.le_add_left 1 _
  · show 1 ≤ count_digits (n / 10 ^ (1 + 1 * i) * (n % 10 ^ (1 + 1 * i)) + 1)
    exact count_digits_pos _
  · show 1 ≤ n / 10 ^ (1 + 1 * i)
    exact Nat.div_pos
      (pow_ten_le n (1 + 1 * i) (by omega) (by rw [count_digits_eq_str_len]; omega))
      (by positivity)

/-- Witness for C10 at the first record of `analyze_number(100)`. -/
theorem C10_witness :
    ({ n := 100, k := 1, a := 10, b := 0, product := 1, prime := false,
        digits := 1 } : SplitRecord) ∈ analyze_number 100 ∧
    (1 : Nat) = 10 * 0 + 1 ∧ (1 : Nat) ≤ 1 ∧ (1 : Nat) ≤ 1 ∧ (1 : Nat) ≤ 10 := by
  have hm : (⟨100, 1, 10, 0, 1, false, 1⟩ : SplitRecord) ∈ analyze_number 100 := by
    rw [analyze_number_100]
    exact List.mem_cons_self _ _
  exact ⟨hm, C10_record_invariants 100 _ hm⟩

end AnalyzeAllSplits
